import Mathlib

/-!
Verification of the interactive list/tree/diff browsing engine of a
terminal git-diff dashboard.  The definitions below are a shallow
embedding of `src/ui/App.tsx` (and the types it consumes from
`src/git/types.ts`): pure functions are translated directly, the pieces
of React state touched by each handler become explicit structures, and
JavaScript `Set` objects become `Finset String`.
-/

namespace GitDiffTui

/-- Change record produced by the git boundary (`src/git/types.ts`, `GitChange`). -/
structure GitChange where
  path : String
  statusCode : String
  status : String
  oldPath : Option String := none
deriving DecidableEq, Repr

/-- Which section of the file list a record belongs to. -/
inductive FileGroup where
  | unstaged
  | staged
deriving DecidableEq, Repr

/-- Display mode of the file list (`ViewMode` in `App.tsx`). -/
inductive ViewMode where
  | flat
  | tree
deriving DecidableEq, Repr

/-- Tree node built by `buildFileTree` (`TreeNode` in `App.tsx`).  Directory
nodes carry an ordered child list (`children: []` at creation in the source);
file nodes carry the originating record and its group. -/
inductive TreeNode where
  | directory (name : String) (path : String) (depth : Nat) (children : List TreeNode)
  | file (name : String) (path : String) (depth : Nat) (ref : GitChange) (group : FileGroup)

/-- The `path` field of a tree node. -/
def TreeNode.path : TreeNode → String
  | .directory _ p _ _ => p
  | .file _ p _ _ _ => p

/-- The `name` field of a tree node. -/
def TreeNode.name : TreeNode → String
  | .directory n _ _ _ => n
  | .file n _ _ _ _ => n

/-- Flatten a tree for rendering (`flattenTree`, App.tsx lines 478-494):
depth-first pre-order; a directory's children are traversed only when its
path is absent from the collapsed set. -/
def flattenTree : List TreeNode → Finset String → List TreeNode
  | [], _ => []
  | .directory nm p d ch :: rest, collapsed =>
      if p ∈ collapsed then
        .directory nm p d ch :: flattenTree rest collapsed
      else
        .directory nm p d ch :: (flattenTree ch collapsed ++ flattenTree rest collapsed)
  | .file nm p d r g :: rest, collapsed =>
      .file nm p d r g :: flattenTree rest collapsed

/-- Prepend one character to a string. -/
def strCons (c : Char) (s : String) : String :=
  String.mk (c :: s.data)

/-- JavaScript `str.split('/')` on a list of characters: splitting an empty
string yields `[""]`, adjacent separators yield empty segments. -/
def splitSlashAux : List Char → List String
  | [] => [""]
  | c :: rest =>
      if c = '/' then "" :: splitSlashAux rest
      else
        match splitSlashAux rest with
        | [] => [strCons c ""]
        | s :: ss => strCons c s :: ss

/-- JavaScript `path.split('/')`. -/
def splitSlash (s : String) : List String :=
  splitSlashAux s.data

/-- JavaScript `path.includes('/')`. -/
def containsSlash (s : String) : Bool :=
  s.data.contains '/'

/-- Kind of an entry in the path-keyed map built by `buildFileTree`; file
entries carry the originating record (the source stores `file` on the node). -/
inductive EntryKind where
  | dir
  | fileRef (r : GitChange)
deriving DecidableEq, Repr

/-- One node of the path-keyed `Map` that `buildFileTree` fills
(App.tsx lines 434-471).  `parent` records the parent path the node was
linked under at creation time: the source pushes the new node into
`parent.children` only when the parent path is non-empty, already present in
the map, and that entry is a directory (files have no `children` array). -/
structure Entry where
  name : String
  path : String
  kind : EntryKind
  depth : Nat
  parent : Option String
deriving DecidableEq, Repr

/-- Walk the `/`-separated segments of one record's path, creating the
missing entries, exactly as the inner `for` loop of `buildFileTree` does. -/
def insertParts (file : GitChange) : List Entry → String → Nat → List String → List Entry
  | entries, _, _, [] => entries
  | entries, currentPath, depth, part :: rest =>
      let parentPath := currentPath
      let cur := if currentPath = "" then part else currentPath ++ "/" ++ part
      let isFile := rest.isEmpty
      let entries' :=
        if entries.any fun e => e.path == cur then entries
        else
          let parent :=
            if parentPath ≠ "" ∧ entries.any fun e => e.path == parentPath && e.kind == EntryKind.dir
            then some parentPath else none
          entries ++ [{ name := part, path := cur,
                        kind := if isFile then EntryKind.fileRef file else EntryKind.dir,
                        depth := depth, parent := parent }]
      insertParts file entries' cur (depth + 1) rest

/-- The full insertion-ordered entry list produced by running every record
through `insertParts` (the outer `files.forEach` of `buildFileTree`). -/
def treeEntries (files : List GitChange) : List Entry :=
  files.foldl
    (fun es f => insertParts f es "" 0 ((splitSlash f.path).filter fun p => p.length > 0)) []

/-- Materialise one entry as a `TreeNode` with the given children. -/
def mkNode (g : FileGroup) (e : Entry) (children : List TreeNode) : TreeNode :=
  match e.kind with
  | .dir => .directory e.name e.path e.depth children
  | .fileRef r => .file e.name e.path e.depth r g

/-- Children of the node at path `p`: the entries linked under `p`, in
insertion order.  Every child entry occurs strictly after its parent's entry,
so scanning the suffix after the parent reconstructs the `children` array the
source builds by mutation. -/
def buildForest (g : FileGroup) : List Entry → String → List TreeNode
  | [], _ => []
  | e :: rest, p =>
      if e.parent == some p then
        mkNode g e (buildForest g rest e.path) :: buildForest g rest p
      else
        buildForest g rest p

/-- Top-level nodes: entries whose path contains no `/`
(`Array.from(root.values()).filter(node => !node.path.includes('/'))`). -/
def buildTop (g : FileGroup) : List Entry → List TreeNode
  | [] => []
  | e :: rest =>
      if containsSlash e.path then buildTop g rest
      else mkNode g e (buildForest g rest e.path) :: buildTop g rest

/-- `buildFileTree` (App.tsx lines 434-475). -/
def buildFileTree (files : List GitChange) (g : FileGroup) : List TreeNode :=
  buildTop g (treeEntries files)

/-- Number of flattened rows a subtree list yields: every node counts once and a
directory's children are counted only when the directory is uncollapsed.  This
is the count of nodes whose full ancestor chain is uncollapsed. -/
def visibleCount : List TreeNode → Finset String → Nat
  | [], _ => 0
  | .directory _ p _ ch :: rest, collapsed =>
      if p ∈ collapsed then 1 + visibleCount rest collapsed
      else 1 + (visibleCount ch collapsed + visibleCount rest collapsed)
  | .file _ _ _ _ _ :: rest, collapsed => 1 + visibleCount rest collapsed

/-- How many rows disappear from the flattened output when path `p` is added
to the collapsed set: for each visible directory whose path is `p`, the count
of its currently-visible descendants. -/
def removedCount : List TreeNode → String → Finset String → Nat
  | [], _, _ => 0
  | .directory _ q _ ch :: rest, p, collapsed =>
      if q = p then
        (if q ∈ collapsed then 0 else visibleCount ch collapsed) + removedCount rest p collapsed
      else if q ∈ collapsed then removedCount rest p collapsed
      else removedCount ch p collapsed + removedCount rest p collapsed
  | .file _ _ _ _ _ :: rest, p, collapsed => removedCount rest p collapsed

/-- Total number of nodes in a subtree list (collapse-independent). -/
def subtreeSizes : List TreeNode → Nat
  | [] => 0
  | .directory _ _ _ ch :: rest => 1 + (subtreeSizes ch + subtreeSizes rest)
  | .file _ _ _ _ _ :: rest => 1 + subtreeSizes rest

/-- Total number of descendants of a node. -/
def descendantCount : TreeNode → Nat
  | .directory _ _ _ ch => subtreeSizes ch
  | .file _ _ _ _ _ => 0

/-- Concrete sample tree for counterexamples: the single record
`src/sub/f.ts`, i.e. file `f.ts` under directory `src/sub` under `src`. -/
def sampleNestedTree : List TreeNode :=
  [TreeNode.directory "src" "src" 0
    [TreeNode.directory "sub" "src/sub" 1
      [TreeNode.file "f.ts" "src/sub/f.ts" 2 ⟨"src/sub/f.ts", " M", "M", none⟩ .unstaged]]]

/-- Row type of the unified list (`ListItem` in `App.tsx`). -/
inductive ListItem where
  | group (label : String) (count : Nat)
  | file (file : GitChange) (group : FileGroup) (node : Option TreeNode)
  | directory (node : TreeNode)

/-- Map a flattened tree node to its display row, as the tree branch of the
`allItems` `useMemo` does. -/
def nodeToItem : TreeNode → ListItem
  | .directory nm p d ch => .directory (.directory nm p d ch)
  | .file nm p d r g => .file r g (some (.file nm p d r g))

/-- The unified row list (`allItems` `useMemo`, App.tsx lines 545-609): the
source pushes a group header and the group's rows for each non-empty group,
flat mode mapping the records directly and tree mode mапping the flattened
tree of the group. -/
def allItems (unstagedFiles stagedFiles : List GitChange) (viewMode : ViewMode)
    (collapsedDirs : Finset String) : List ListItem :=
  match viewMode with
  | .flat =>
      (if unstagedFiles.length > 0 then
        ListItem.group "Changes" unstagedFiles.length ::
          unstagedFiles.map (fun f => ListItem.file f .unstaged none)
      else []) ++
      (if stagedFiles.length > 0 then
        ListItem.group "Staged Changes" stagedFiles.length ::
          stagedFiles.map (fun f => ListItem.file f .staged none)
      else [])
  | .tree =>
      (if unstagedFiles.length > 0 then
        ListItem.group "Changes" unstagedFiles.length ::
          (flattenTree (buildFileTree unstagedFiles .unstaged) collapsedDirs).map nodeToItem
      else []) ++
      (if stagedFiles.length > 0 then
        ListItem.group "Staged Changes" stagedFiles.length ::
          (flattenTree (buildFileTree stagedFiles .staged) collapsedDirs).map nodeToItem
      else [])

/-- Group branch of the space-key handler (App.tsx lines 1273-1293): if every
record of the group is already selected, delete them all from the selection,
otherwise add them all. -/
def toggleGroupSelection (groupFiles : List GitChange) (selectedPaths : Finset String) :
    Finset String :=
  if ∀ f ∈ groupFiles, f.path ∈ selectedPaths then
    groupFiles.foldl (fun s f => s.erase f.path) selectedPaths
  else
    groupFiles.foldl (fun s f => insert f.path s) selectedPaths

/-- Full space-key handler for the files pane (App.tsx lines 1270-1305): look
up the focused row in `allItems`; on a group header toggle the whole group
(reading `stagedFiles`/`unstagedFiles` directly, not the visible rows); on a
file row toggle that single path; otherwise do nothing. -/
def spaceOnList (unstagedFiles stagedFiles : List GitChange) (viewMode : ViewMode)
    (collapsedDirs : Finset String) (selectedIndex : Nat) (selectedPaths : Finset String) :
    Finset String :=
  match List.get? (allItems unstagedFiles stagedFiles viewMode collapsedDirs) selectedIndex with
  | some (ListItem.group label _) =>
      let groupFiles := if label = "Staged Changes" then stagedFiles else unstagedFiles
      toggleGroupSelection groupFiles selectedPaths
  | some (ListItem.file f _ _) =>
      if f.path ∈ selectedPaths then selectedPaths.erase f.path else insert f.path selectedPaths
  | _ => selectedPaths

/-- Focus/scroll state of the files pane (`selectedIndex`/`listScrollTop`).
JavaScript numbers are modelled as `Int`. -/
structure PaneState where
  selectedIndex : Int
  listScrollTop : Int
deriving DecidableEq, Repr

/-- `Math.max(3, adjustedRows - 8)` (App.tsx line 955). -/
def mainAreaHeight (adjustedRows : Int) : Int := max 3 (adjustedRows - 8)

/-- `Math.floor(mainAreaHeight * 2 / 4)` — the height of the files-pane
viewport (App.tsx lines 1200, 1224, 1423). -/
def filesPaneHeight (mainH : Int) : Int := mainH * 2 / 4

/-- Up-arrow handler for the files pane (App.tsx lines 1195-1205): move the
focus up one row and pull the scroll top up when the focus leaves the window.
The handler computes `filesPaneHeight` but never uses it on this branch. -/
def moveUp (s : PaneState) : PaneState :=
  let nextIndex := max (s.selectedIndex - 1) 0
  { selectedIndex := nextIndex
    listScrollTop := if nextIndex < s.listScrollTop then nextIndex else s.listScrollTop }

/-- Down-arrow handler for the files pane (App.tsx lines 1219-1229). -/
def moveDown (total mainH : Int) (s : PaneState) : PaneState :=
  let nextIndex := min (s.selectedIndex + 1) (total - 1)
  let h := filesPaneHeight mainH
  { selectedIndex := nextIndex
    listScrollTop := if nextIndex ≥ s.listScrollTop + h then nextIndex - h + 1
                     else s.listScrollTop }

/-- Re-clamp effect run when the row list changes (App.tsx lines 959-969).
Note that it uses `mainAreaHeight`, not the files-pane viewport height. -/
def reclampEffect (total mainH : Int) (s : PaneState) : PaneState :=
  if s.selectedIndex ≥ total then
    let lastIndex := max 0 (total - 1)
    { selectedIndex := lastIndex, listScrollTop := max 0 (lastIndex - mainH + 1) }
  else if total = 0 then
    { selectedIndex := 0, listScrollTop := 0 }
  else s

/-- The scroll-window invariant the specification states for a viewport of
height `h` over `total` rows. -/
def paneInv (h total : Int) (s : PaneState) : Prop :=
  0 ≤ s.listScrollTop ∧ s.listScrollTop ≤ s.selectedIndex ∧
    s.selectedIndex ≤ s.listScrollTop + h - 1 ∧ s.selectedIndex < total

/-- The clamp update rule exactly as the specification states it (§4.4),
used to compare the code's rebuild effect against the spec's rule. -/
def specScrollClamp (focusIndex scrollTop viewportHeight : Int) : Int :=
  if focusIndex < scrollTop then focusIndex
  else if focusIndex ≥ scrollTop + viewportHeight then focusIndex - viewportHeight + 1
  else scrollTop

/-- Key events handled while in path-input mode (App.tsx lines 1079-1152).
Character input and clipboard text are character lists, matching how the
source slices the JavaScript string at the cursor. -/
inductive PathKey where
  | charInput (input : List Char)
  | backspace
  | leftArrow
  | rightArrow
  | home
  | endKey
  | paste (clip : List Char)
  | clear
deriving DecidableEq, Repr

/-- The path-entry text state (`pathInput` / `cursorPosition`). -/
structure PathState where
  pathInput : List Char
  cursorPosition : Nat
deriving DecidableEq, Repr

/-- `clipboardContent.replace(/[\r\n]+/g, '')` (App.tsx line 1097). -/
def sanitizeClipboard (clip : List Char) : List Char :=
  clip.filter fun c => !(c == '\r' || c == '\n')

/-- One path-input keystroke (App.tsx lines 1079-1152).  `Math.max(0, c - 1)`
is truncated `Nat` subtraction; slices become `take`/`drop`. -/
def pathStep (s : PathState) : PathKey → PathState
  | .charInput input =>
      { pathInput := s.pathInput.take s.cursorPosition ++ input ++ s.pathInput.drop s.cursorPosition
        cursorPosition := s.cursorPosition + input.length }
  | .backspace =>
      if s.cursorPosition > 0 then
        { pathInput := s.pathInput.take (s.cursorPosition - 1) ++ s.pathInput.drop s.cursorPosition
          cursorPosition := s.cursorPosition - 1 }
      else s
  | .leftArrow => { s with cursorPosition := s.cursorPosition - 1 }
  | .rightArrow => { s with cursorPosition := min s.pathInput.length (s.cursorPosition + 1) }
  | .home => { s with cursorPosition := 0 }
  | .endKey => { s with cursorPosition := s.pathInput.length }
  | .paste clip =>
      let sanitized := sanitizeClipboard clip
      { pathInput := s.pathInput.take s.cursorPosition ++ sanitized ++ s.pathInput.drop s.cursorPosition
        cursorPosition := s.cursorPosition + sanitized.length }
  | .clear => { pathInput := [], cursorPosition := 0 }

/-- The state path-input mode is entered with (`setPathInput('')`,
`setCursorPosition(0)` on every transition into an input mode). -/
def pathEntryStart : PathState := { pathInput := [], cursorPosition := 0 }

/-- Clock reading, standing in for the `Date` accessors used by the
timestamped-name helpers. -/
structure DateTime where
  year : Nat
  month : Nat
  day : Nat
  hours : Nat
  minutes : Nat
  seconds : Nat
deriving DecidableEq, Repr

/-- `String(n).padStart(2, '0')`. -/
def padTwo (n : Nat) : String :=
  let s := toString n
  if s.length < 2 then String.mk (List.replicate (2 - s.length) '0' ++ s.data) else s

/-- `getTimestampedFileName` (App.tsx lines 80-91). -/
def getTimestampedFileName (pre : String) (now : DateTime) : String :=
  pre ++ "_" ++ toString now.year ++ padTwo now.month ++ padTwo now.day ++ "_" ++
    padTwo now.hours ++ padTwo now.minutes ++ padTwo now.seconds ++ ".txt"

/-- `getCommitFileName` (App.tsx lines 94-107). -/
def getCommitFileName (commitHash : String) (now : DateTime) : String :=
  "diff_" ++ commitHash ++ "_" ++
    (toString now.year ++ padTwo now.month ++ padTwo now.day) ++ "_" ++
    (padTwo now.hours ++ padTwo now.minutes ++ padTwo now.seconds) ++ ".txt"

/-- JavaScript `str.trim()`: strip leading and trailing whitespace. -/
def jsTrim (s : String) : String :=
  String.mk (((s.data.dropWhile Char.isWhitespace).reverse.dropWhile Char.isWhitespace).reverse)

/-- Which pane has focus (`FocusPane` in `App.tsx`). -/
inductive FocusPane where
  | files
  | commits
deriving DecidableEq, Repr

/-- Code-dump layout flag (`DumpMode` in `App.tsx`). -/
inductive DumpMode where
  | tree
  | flat
deriving DecidableEq, Repr

/-- The input-mode state machine's states (`InputMode` in `App.tsx`). -/
inductive InputMode where
  | normal
  | exportPath
  | exportOverview
  | exportCodeDump
deriving DecidableEq, Repr

/-- The three non-`normal` input modes, i.e. the parameterisation of the
path-entry state by the export operation confirm will trigger. -/
inductive EntryMode where
  | exportPath
  | exportOverview
  | exportCodeDump
deriving DecidableEq, Repr

/-- The export call the Enter handler dispatches to. -/
inductive ExportAction where
  | exportCommits (finalPath : String)
  | exportSingle
  | exportMultiple (finalPath : String)
  | exportOverview (finalPath : String)
  | exportCodeDump (finalPath : String) (mode : DumpMode)
deriving DecidableEq, Repr

/-- State left behind by the Enter handler together with the dispatched
export call. -/
structure ConfirmResult where
  action : ExportAction
  inputMode : InputMode
  pathInput : String
  cursorPosition : Nat
deriving DecidableEq, Repr

/-- The Enter branch of the path-input key handler (App.tsx lines 1034-1077):
always returns to normal mode and resets the buffer and cursor; the commits
and code-dump branches hand over the trimmed buffer, while the multi-file and
overview branches trim only to test for emptiness and otherwise hand over the
buffer as typed. -/
def confirmEnter (mode : EntryMode) (pane : FocusPane) (currentCommit : Option String)
    (selectedPaths : Finset String) (dumpMode : DumpMode) (pathInput : String)
    (now : DateTime) : ConfirmResult :=
  match mode with
  | .exportPath =>
      if pane = .commits then
        let t := jsTrim pathInput
        let finalPath :=
          if t = "" then
            match currentCommit with
            | some h => "./" ++ getCommitFileName h now
            | none => "./" ++ getTimestampedFileName "commit" now
          else t
        { action := .exportCommits finalPath, inputMode := .normal, pathInput := "", cursorPosition := 0 }
      else
        let finalPath :=
          if jsTrim pathInput = "" then "./" ++ getTimestampedFileName "diff" now else pathInput
        if selectedPaths = ∅ then
          { action := .exportSingle, inputMode := .normal, pathInput := "", cursorPosition := 0 }
        else
          { action := .exportMultiple finalPath, inputMode := .normal, pathInput := "", cursorPosition := 0 }
  | .exportOverview =>
      { action := .exportOverview
          (if jsTrim pathInput = "" then "./" ++ getTimestampedFileName "files_overview" now
           else pathInput)
        inputMode := .normal, pathInput := "", cursorPosition := 0 }
  | .exportCodeDump =>
      { action := .exportCodeDump (jsTrim pathInput) dumpMode
        inputMode := .normal, pathInput := "", cursorPosition := 0 }

/-- A string of decimal digits of the given length. -/
def digitRun (s : String) (n : Nat) : Prop :=
  s.length = n ∧ ∀ c ∈ s.data, c.isDigit

/-- The filename pattern `<pre>_YYYYMMDD_HHMMSS.txt`. -/
def matchesTimestampPattern (pre s : String) : Prop :=
  ∃ d8 d6 : String, digitRun d8 8 ∧ digitRun d6 6 ∧ s = pre ++ "_" ++ d8 ++ "_" ++ d6 ++ ".txt"

end GitDiffTui

namespace GitDiffTui

/-! ### Selection-set helper lemmas -/

theorem mem_foldl_erase (l : List GitChange) (sel : Finset String) (x : String) :
    x ∈ l.foldl (fun s f => s.erase f.path) sel ↔ x ∈ sel ∧ x ∉ l.map GitChange.path := by
  induction l generalizing sel with
  | nil => simp
  | cons hd tl ih =>
      simp only [List.foldl_cons, ih, Finset.mem_erase, List.map_cons, List.mem_cons]
      tauto

theorem mem_foldl_insert (l : List GitChange) (sel : Finset String) (x : String) :
    x ∈ l.foldl (fun s f => insert f.path s) sel ↔ x ∈ sel ∨ x ∈ l.map GitChange.path := by
  induction l generalizing sel with
  | nil => simp
  | cons hd tl ih =>
      simp only [List.foldl_cons, ih, Finset.mem_insert, List.map_cons, List.mem_cons]
      tauto

theorem mem_toggleGroupSelection (groupFiles : List GitChange) (sel : Finset String) (x : String) :
    x ∈ toggleGroupSelection groupFiles sel ↔
      if ∀ f ∈ groupFiles, f.path ∈ sel
      then x ∈ sel ∧ x ∉ groupFiles.map GitChange.path
      else x ∈ sel ∨ x ∈ groupFiles.map GitChange.path := by
  unfold toggleGroupSelection
  by_cases h : ∀ f ∈ groupFiles, f.path ∈ sel
  · simp only [if_pos h]
    exact mem_foldl_erase groupFiles sel x
  · simp only [if_neg h]
    exact mem_foldl_insert groupFiles sel x

/-- C2: the group toggle is all-or-nothing: when every path of the group is
already selected it removes exactly the group's paths, otherwise it adds them
all; in particular with unstaged `src/a.ts`, `src/b.ts` and selection
`{"src/a.ts"}` one press selects both files. -/
theorem group_toggle_all_or_nothing :
    (∀ (groupFiles : List GitChange) (sel : Finset String) (x : String),
        x ∈ toggleGroupSelection groupFiles sel ↔
          if ∀ f ∈ groupFiles, f.path ∈ sel
          then x ∈ sel ∧ x ∉ groupFiles.map GitChange.path
          else x ∈ sel ∨ x ∈ groupFiles.map GitChange.path) ∧
    "src/a.ts" ∈ toggleGroupSelection
        [⟨"src/a.ts", " M", "M", none⟩, ⟨"src/b.ts", "??", "??", none⟩] {"src/a.ts"} ∧
    "src/b.ts" ∈ toggleGroupSelection
        [⟨"src/a.ts", " M", "M", none⟩, ⟨"src/b.ts", "??", "??", none⟩] {"src/a.ts"} := by
  refine ⟨mem_toggleGroupSelection, ?_, ?_⟩ <;> decide

/-- C3 counterexample: starting from the partial selection `{"src/a.ts"}` over
the group `[src/a.ts, src/b.ts]`, toggling twice yields the empty selection,
not the original: the double toggle is not the identity. -/
theorem group_toggle_double_counterexample :
    toggleGroupSelection [⟨"src/a.ts", " M", "M", none⟩, ⟨"src/b.ts", "??", "??", none⟩]
        (toggleGroupSelection [⟨"src/a.ts", " M", "M", none⟩, ⟨"src/b.ts", "??", "??", none⟩]
          {"src/a.ts"}) ≠ ({"src/a.ts"} : Finset String) := by
  decide

/-- C3 (amended): toggling group selection twice returns the SelectionSet to
its original contents whenever the group's paths start out either all
selected or all unselected (in particular from an empty or full selection);
from a strictly partial selection the double toggle instead empties the
group's paths out of the set. -/
theorem group_toggle_double_id_of_uniform (groupFiles : List GitChange) (sel : Finset String)
    (h : (∀ f ∈ groupFiles, f.path ∈ sel) ∨ (∀ f ∈ groupFiles, f.path ∉ sel)) :
    toggleGroupSelection groupFiles (toggleGroupSelection groupFiles sel) = sel := by
  cases groupFiles with
  | nil => simp [toggleGroupSelection]
  | cons f₀ tl =>
      set g : List GitChange := f₀ :: tl with hg
      rcases h with hall | hnone
      · have h1 : ∀ y, y ∈ toggleGroupSelection g sel ↔ y ∈ sel ∧ y ∉ g.map GitChange.path := by
          intro y
          rw [mem_toggleGroupSelection, if_pos hall]
        have hP1 : ¬ ∀ f ∈ g, f.path ∈ toggleGroupSelection g sel := by
          intro hc
          have hf := (h1 f₀.path).mp (hc f₀ (by simp [hg]))
          exact hf.2 (by simp [hg])
        have hsub : ∀ y ∈ g.map GitChange.path, y ∈ sel := by
          intro y hy
          rcases List.mem_map.mp hy with ⟨f, hf, rfl⟩
          exact hall f hf
        ext y
        rw [mem_toggleGroupSelection, if_neg hP1, h1 y]
        constructor
        · rintro (⟨hy, _⟩ | hy)
          · exact hy
          · exact hsub y hy
        · intro hy
          by_cases hyp : y ∈ g.map GitChange.path
          · exact Or.inr hyp
          · exact Or.inl ⟨hy, hyp⟩
      · have hP : ¬ ∀ f ∈ g, f.path ∈ sel := by
          intro hc
          exact hnone f₀ (by simp [hg]) (hc f₀ (by simp [hg]))
        have h1 : ∀ y, y ∈ toggleGroupSelection g sel ↔ y ∈ sel ∨ y ∈ g.map GitChange.path := by
          intro y
          rw [mem_toggleGroupSelection, if_neg hP]
        have hP1 : ∀ f ∈ g, f.path ∈ toggleGroupSelection g sel := by
          intro f hf
          exact (h1 f.path).mpr (Or.inr (List.mem_map_of_mem _ hf))
        have hdis : ∀ y ∈ g.map GitChange.path, y ∉ sel := by
          intro y hy
          rcases List.mem_map.mp hy with ⟨f, hf, rfl⟩
          exact hnone f hf
        ext y
        rw [mem_toggleGroupSelection, if_pos hP1, h1 y]
        constructor
        · rintro ⟨hy | hy, hyp⟩
          · exact hy
          · exact absurd hy hyp
        · intro hy
          exact ⟨Or.inl hy, fun hyp => hdis y hyp hy⟩

/-- Witness for C3 (amended) at a concrete uniform input. -/
theorem group_toggle_double_id_of_uniform_witness :
    toggleGroupSelection [⟨"src/a.ts", " M", "M", none⟩]
        (toggleGroupSelection [⟨"src/a.ts", " M", "M", none⟩] ∅) = ∅ :=
  group_toggle_double_id_of_uniform [⟨"src/a.ts", " M", "M", none⟩] ∅ (Or.inr (by decide))

/-- C10: the group branch of the space-key handler reads the underlying
`stagedFiles`/`unstagedFiles` lists, not the visible rows, so two states that
differ only in their collapsed set (and focus a header with the same label,
possibly at different indices) produce identical selection sets. -/
theorem group_toggle_collapse_noninterference
    (u s : List GitChange) (sel : Finset String)
    (vm₁ vm₂ : ViewMode) (c₁ c₂ : Finset String) (i₁ i₂ : Nat)
    (label : String) (n₁ n₂ : Nat)
    (h₁ : List.get? (allItems u s vm₁ c₁) i₁ = some (ListItem.group label n₁))
    (h₂ : List.get? (allItems u s vm₂ c₂) i₂ = some (ListItem.group label n₂)) :
    spaceOnList u s vm₁ c₁ i₁ sel = spaceOnList u s vm₂ c₂ i₂ sel := by
  unfold spaceOnList
  rw [h₁, h₂]

/-- Witness for C10: a fully expanded and a collapsed tree state over the same
lists, both focused on the "Changes" header. -/
theorem group_toggle_collapse_noninterference_witness :
    spaceOnList [⟨"src/a.ts", " M", "M", none⟩, ⟨"src/b.ts", "??", "??", none⟩] [] .tree ∅ 0 ∅ =
      spaceOnList [⟨"src/a.ts", " M", "M", none⟩, ⟨"src/b.ts", "??", "??", none⟩] [] .tree
        {"src"} 0 ∅ :=
  group_toggle_collapse_noninterference _ _ ∅ .tree .tree ∅ {"src"} 0 0 "Changes" 2 2 rfl rfl

end GitDiffTui

namespace GitDiffTui

/-! ### Tree-flattener lemmas -/

theorem length_flattenTree (ns : List TreeNode) (c : Finset String) :
    (flattenTree ns c).length = visibleCount ns c := by
  induction ns, c using flattenTree.induct with
  | case1 c => simp [flattenTree, visibleCount]
  | case2 nm p d ch rest c hmem ih =>
      simp [flattenTree, visibleCount, hmem, ih]
      omega
  | case3 nm p d ch rest c hmem ih1 ih2 =>
      simp [flattenTree, visibleCount, hmem, ih1, ih2]
      omega
  | case4 nm p d r g rest c ih =>
      simp [flattenTree, visibleCount, ih]
      omega

theorem visibleCount_insert (ns : List TreeNode) (p : String) (c : Finset String) :
    p ∉ c → visibleCount ns c = visibleCount ns (insert p c) + removedCount ns p c := by
  induction ns, p, c using removedCount.induct with
  | case1 p c =>
      intro _
      simp [visibleCount, removedCount]
  | case2 nm d ch rest p c ih =>
      intro hp
      have ih' := ih hp
      simp [visibleCount, removedCount, if_neg hp, Finset.mem_insert_self]
      omega
  | case3 nm q d ch rest p c hq hmem ih =>
      intro hp
      have ih' := ih hp
      simp [visibleCount, removedCount, hmem, hq]
      omega
  | case4 nm q d ch rest p c hq hmem ih1 ih2 =>
      intro hp
      have ih1' := ih1 hp
      have ih2' := ih2 hp
      simp [visibleCount, removedCount, hmem, hq]
      omega
  | case5 nm pth d r g rest p c ih =>
      intro hp
      have ih' := ih hp
      simp [visibleCount, removedCount]
      omega

end GitDiffTui

namespace GitDiffTui

/-- C4 counterexample: with `src/sub` already collapsed, the flattened view of
`sampleNestedTree` is `[src, src/sub]`; adding `src` to the CollapsedSet
removes one row, while the `src` directory's descendant count is two — so
collapsing a directory does not in general remove exactly its descendant
count from the output. -/
theorem flatten_collapse_counterexample :
    (flattenTree sampleNestedTree {"src/sub"}).length = 2 ∧
    (flattenTree sampleNestedTree (insert "src" {"src/sub"})).length = 1 ∧
    descendantCount (TreeNode.directory "src" "src" 0
      [TreeNode.directory "sub" "src/sub" 1
        [TreeNode.file "f.ts" "src/sub/f.ts" 2 ⟨"src/sub/f.ts", " M", "M", none⟩ .unstaged]]) = 2 ∧
    (flattenTree sampleNestedTree {"src/sub"}).length -
        (flattenTree sampleNestedTree (insert "src" {"src/sub"})).length ≠
      descendantCount (TreeNode.directory "src" "src" 0
        [TreeNode.directory "sub" "src/sub" 1
          [TreeNode.file "f.ts" "src/sub/f.ts" 2 ⟨"src/sub/f.ts", " M", "M", none⟩ .unstaged]]) := by
  have hm1 : "src" ∉ ({"src/sub"} : Finset String) := by decide
  have hm2 : "src/sub" ∈ ({"src/sub"} : Finset String) := by decide
  have hm3 : "src" ∈ (insert "src" {"src/sub"} : Finset String) := by decide
  have h1 : (flattenTree sampleNestedTree {"src/sub"}).length = 2 := by
    simp [sampleNestedTree, flattenTree, hm1, hm2]
  have h2 : (flattenTree sampleNestedTree (insert "src" {"src/sub"})).length = 1 := by
    simp [sampleNestedTree, flattenTree, hm3]
  have h3 : descendantCount (TreeNode.directory "src" "src" 0
      [TreeNode.directory "sub" "src/sub" 1
        [TreeNode.file "f.ts" "src/sub/f.ts" 2 ⟨"src/sub/f.ts", " M", "M", none⟩ .unstaged]]) = 2 := by
    simp [descendantCount, subtreeSizes]
  exact ⟨h1, h2, h3, by rw [h1, h2, h3]; decide⟩

/-- C4 (amended): flattening is the deterministic pre-order traversal in which
a directory's children are visited exactly when its path is absent from the
CollapsedSet; the output length equals the number of nodes whose full ancestor
chain is uncollapsed; adding a directory path `p` not already collapsed
removes exactly the `removedCount` of `p` — the number of currently-visible
descendants of the visible directories at `p` (its full descendant count only
when no descendant directory is itself collapsed) — and removing `p` again
restores the identical output sequence. -/
theorem tree_flattener_spec :
    (∀ nm p d ch rest c, flattenTree (TreeNode.directory nm p d ch :: rest) c =
        TreeNode.directory nm p d ch ::
          (if p ∈ c then flattenTree rest c else flattenTree ch c ++ flattenTree rest c)) ∧
    (∀ nm p d r g rest c, flattenTree (TreeNode.file nm p d r g :: rest) c =
        TreeNode.file nm p d r g :: flattenTree rest c) ∧
    (∀ ns c, (flattenTree ns c).length = visibleCount ns c) ∧
    (∀ ns p c, p ∉ c →
        (flattenTree ns c).length = (flattenTree ns (insert p c)).length + removedCount ns p c) ∧
    (∀ ns p c, p ∉ c → flattenTree ns ((insert p c).erase p) = flattenTree ns c) := by
  refine ⟨?_, ?_, length_flattenTree, ?_, ?_⟩
  · intro nm p d ch rest c
    by_cases h : p ∈ c <;> simp [flattenTree, h]
  · intro nm p d r g rest c
    simp [flattenTree]
  · intro ns p c hp
    rw [length_flattenTree, length_flattenTree, visibleCount_insert ns p c hp]
  · intro ns p c hp
    rw [Finset.erase_insert hp]

/-- Witness for C4 (amended) on `sampleNestedTree`, collapsing `src` from the
fully expanded state. -/
theorem tree_flattener_spec_witness :
    (flattenTree sampleNestedTree ∅).length =
        (flattenTree sampleNestedTree (insert "src" ∅)).length +
          removedCount sampleNestedTree "src" ∅ ∧
    flattenTree sampleNestedTree ((insert "src" (∅ : Finset String)).erase "src") =
      flattenTree sampleNestedTree ∅ :=
  ⟨tree_flattener_spec.2.2.2.1 sampleNestedTree "src" ∅ (by decide),
   tree_flattener_spec.2.2.2.2 sampleNestedTree "src" ∅ (by decide)⟩

end GitDiffTui

namespace GitDiffTui

/-- C5: row construction.  Flat mode emits `Group("Changes", n)` then one File
row per unstaged record in order, then — only when the staged list is
non-empty — `Group("Staged Changes", m)` and its File rows; an empty group is
omitted entirely together with its header.  Tree mode instead emits, per
non-empty group, the header followed by one Directory or File row per node of
the group's flattened tree.  The concrete scenario `[src/a.ts (M),
src/b.ts (??)]`, staged empty, tree mode, no collapses yields
`[Group("Changes",2), Directory(src), File(src/a.ts), File(src/b.ts)]`. -/
theorem rebuild_rows_spec :
    (∀ (u s : List GitChange) (c : Finset String),
        allItems u s .flat c =
          (if u = [] then [] else
            ListItem.group "Changes" u.length ::
              u.map fun f => ListItem.file f .unstaged none) ++
          (if s = [] then [] else
            ListItem.group "Staged Changes" s.length ::
              s.map fun f => ListItem.file f .staged none)) ∧
    (∀ (u s : List GitChange) (c : Finset String),
        allItems u s .tree c =
          (if u = [] then [] else
            ListItem.group "Changes" u.length ::
              (flattenTree (buildFileTree u .unstaged) c).map nodeToItem) ++
          (if s = [] then [] else
            ListItem.group "Staged Changes" s.length ::
              (flattenTree (buildFileTree s .staged) c).map nodeToItem)) ∧
    allItems [⟨"src/a.ts", " M", "M", none⟩, ⟨"src/b.ts", "??", "??", none⟩] [] .tree ∅ =
      [ListItem.group "Changes" 2,
       ListItem.directory (TreeNode.directory "src" "src" 0
         [TreeNode.file "a.ts" "src/a.ts" 1 ⟨"src/a.ts", " M", "M", none⟩ .unstaged,
          TreeNode.file "b.ts" "src/b.ts" 1 ⟨"src/b.ts", "??", "??", none⟩ .unstaged]),
       ListItem.file ⟨"src/a.ts", " M", "M", none⟩ .unstaged
         (some (TreeNode.file "a.ts" "src/a.ts" 1 ⟨"src/a.ts", " M", "M", none⟩ .unstaged)),
       ListItem.file ⟨"src/b.ts", "??", "??", none⟩ .unstaged
         (some (TreeNode.file "b.ts" "src/b.ts" 1 ⟨"src/b.ts", "??", "??", none⟩ .unstaged))] := by
  have htree : ∀ (u s : List GitChange) (c : Finset String),
      allItems u s .tree c =
        (if u = [] then [] else
          ListItem.group "Changes" u.length ::
            (flattenTree (buildFileTree u .unstaged) c).map nodeToItem) ++
        (if s = [] then [] else
          ListItem.group "Staged Changes" s.length ::
            (flattenTree (buildFileTree s .staged) c).map nodeToItem) := by
    intro u s c
    cases u <;> cases s <;> simp [allItems]
  refine ⟨?_, htree, ?_⟩
  · intro u s c
    cases u <;> cases s <;> simp [allItems]
  · rw [htree]
    have hb : buildFileTree [⟨"src/a.ts", " M", "M", none⟩, ⟨"src/b.ts", "??", "??", none⟩]
        .unstaged =
        [TreeNode.directory "src" "src" 0
          [TreeNode.file "a.ts" "src/a.ts" 1 ⟨"src/a.ts", " M", "M", none⟩ .unstaged,
           TreeNode.file "b.ts" "src/b.ts" 1 ⟨"src/b.ts", "??", "??", none⟩ .unstaged]] := rfl
    rw [hb]
    have hf : flattenTree
        [TreeNode.directory "src" "src" 0
          [TreeNode.file "a.ts" "src/a.ts" 1 ⟨"src/a.ts", " M", "M", none⟩ .unstaged,
           TreeNode.file "b.ts" "src/b.ts" 1 ⟨"src/b.ts", "??", "??", none⟩ .unstaged]] ∅ =
        [TreeNode.directory "src" "src" 0
          [TreeNode.file "a.ts" "src/a.ts" 1 ⟨"src/a.ts", " M", "M", none⟩ .unstaged,
           TreeNode.file "b.ts" "src/b.ts" 1 ⟨"src/b.ts", "??", "??", none⟩ .unstaged],
         TreeNode.file "a.ts" "src/a.ts" 1 ⟨"src/a.ts", " M", "M", none⟩ .unstaged,
         TreeNode.file "b.ts" "src/b.ts" 1 ⟨"src/b.ts", "??", "??", none⟩ .unstaged] := by
      simp [flattenTree]
    rw [hf]
    rfl

end GitDiffTui

namespace GitDiffTui

/-! ### Tree-builder lemmas -/

theorem mkNode_path (g : FileGroup) (e : Entry) (ch : List TreeNode) :
    (mkNode g e ch).path = e.path := by
  cases hk : e.kind <;> simp [mkNode, hk, TreeNode.path]

theorem buildForest_map_path (g : FileGroup) (es : List Entry) (p : String) :
    (buildForest g es p).map TreeNode.path =
      (es.filter fun e => e.parent == some p).map Entry.path := by
  induction es with
  | nil => simp [buildForest]
  | cons e rest ih =>
      by_cases hc : e.parent == some p
      · simp [buildForest, hc, mkNode_path, ih]
      · simp [buildForest, hc, ih]

theorem buildTop_map_path (g : FileGroup) (es : List Entry) :
    (buildTop g es).map TreeNode.path =
      (es.filter fun e => !containsSlash e.path).map Entry.path := by
  induction es with
  | nil => simp [buildTop]
  | cons e rest ih =>
      by_cases hc : containsSlash e.path
      · simp [buildTop, hc, ih]
      · simp [buildTop, hc, mkNode_path, ih]

theorem insertParts_nodup (f : GitChange) (parts : List String) (entries : List Entry)
    (curPath : String) (depth : Nat) (h : (entries.map Entry.path).Nodup) :
    ((insertParts f entries curPath depth parts).map Entry.path).Nodup := by
  induction parts generalizing entries curPath depth with
  | nil => simpa [insertParts] using h
  | cons part rest ih =>
      simp only [insertParts]
      apply ih
      set cur := if curPath = "" then part else curPath ++ "/" ++ part with hcur
      split
      · exact h
      · rename_i hc
        rw [List.map_append]
        simp only [List.map_cons, List.map_nil]
        rw [List.nodup_append]
        refine ⟨h, List.nodup_singleton _, ?_⟩
        intro a ha hb
        simp only [List.mem_singleton] at hb
        subst hb
        rcases List.mem_map.mp ha with ⟨e, he, hpe⟩
        exact hc (List.any_eq_true.mpr ⟨e, he, beq_iff_eq.mpr hpe⟩)

theorem treeEntries_nodup (files : List GitChange) :
    ((treeEntries files).map Entry.path).Nodup := by
  have aux : ∀ (fs : List GitChange) (entries : List Entry),
      (entries.map Entry.path).Nodup →
      ((fs.foldl (fun es f =>
          insertParts f es "" 0 ((splitSlash f.path).filter fun p => p.length > 0))
        entries).map Entry.path).Nodup := by
    intro fs
    induction fs with
    | nil => intro entries h; simpa using h
    | cons f rest ih =>
        intro entries h
        exact ih _ (insertParts_nodup f _ entries "" 0 h)
  exact aux files [] (by simp)

/-- C6: `buildFileTree` is total by construction; an empty input yields an
empty output; the top-level sequence is exactly the created nodes whose path
contains no `/` (no parent segment), in creation order; each directory's
children are exactly the entries linked under it, in first-seen (insertion)
order of the input records — concretely, the records `d/b.ts` then `d/a.ts`
yield children `[b.ts, a.ts]`, insertion order rather than alphabetical. -/
theorem tree_builder_spec :
    (∀ g : FileGroup, buildFileTree [] g = []) ∧
    (∀ (files : List GitChange) (g : FileGroup),
        (buildFileTree files g).map TreeNode.path =
          ((treeEntries files).filter fun e => !containsSlash e.path).map Entry.path) ∧
    (∀ (g : FileGroup) (es : List Entry) (p : String),
        (buildForest g es p).map TreeNode.path =
          (es.filter fun e => e.parent == some p).map Entry.path) ∧
    buildFileTree [⟨"d/b.ts", " M", "M", none⟩, ⟨"d/a.ts", " M", "M", none⟩] .unstaged =
      [TreeNode.directory "d" "d" 0
        [TreeNode.file "b.ts" "d/b.ts" 1 ⟨"d/b.ts", " M", "M", none⟩ .unstaged,
         TreeNode.file "a.ts" "d/a.ts" 1 ⟨"d/a.ts", " M", "M", none⟩ .unstaged]] := by
  refine ⟨fun g => rfl, fun files g => ?_, buildForest_map_path, rfl⟩
  exact buildTop_map_path g (treeEntries files)

/-- C9: the path-keyed map guard creates at most one entry per distinct path
(the entry paths are nodup); a record whose path repeats an earlier record's
path adds nothing, and a record whose path collides with an existing
directory node contributes no File node at all — the later record is
silently dropped from the tree. -/
theorem tree_builder_unique_paths :
    (∀ files : List GitChange, ((treeEntries files).map Entry.path).Nodup) ∧
    treeEntries [⟨"src/a.ts", " M", "M", none⟩, ⟨"src/a.ts", " M", "M", none⟩] =
      treeEntries [⟨"src/a.ts", " M", "M", none⟩] ∧
    buildFileTree [⟨"a/b.ts", " M", "M", none⟩, ⟨"a", "??", "??", none⟩] .unstaged =
      buildFileTree [⟨"a/b.ts", " M", "M", none⟩] .unstaged :=
  ⟨treeEntries_nodup, rfl, rfl⟩

end GitDiffTui

namespace GitDiffTui

/-! ### Path-entry lemmas -/

theorem pathStep_cursor_le (s : PathState) (k : PathKey)
    (h : s.cursorPosition ≤ s.pathInput.length) :
    (pathStep s k).cursorPosition ≤ (pathStep s k).pathInput.length := by
  cases k with
  | charInput input =>
      simp only [pathStep, List.length_append, List.length_take, List.length_drop]
      omega
  | backspace =>
      by_cases h0 : s.cursorPosition > 0
      · simp only [pathStep, if_pos h0, List.length_append, List.length_take, List.length_drop]
        omega
      · simpa [pathStep, if_neg h0] using h
  | leftArrow =>
      simp only [pathStep]
      omega
  | rightArrow =>
      simp only [pathStep]
      omega
  | home => simp [pathStep]
  | endKey => simp [pathStep]
  | paste clip =>
      simp only [pathStep, List.length_append, List.length_take, List.length_drop]
      omega
  | clear => simp [pathStep]

theorem foldl_pathStep_inv (keys : List PathKey) (s : PathState)
    (h : s.cursorPosition ≤ s.pathInput.length) :
    (keys.foldl pathStep s).cursorPosition ≤ (keys.foldl pathStep s).pathInput.length := by
  induction keys generalizing s with
  | nil => simpa using h
  | cons k rest ih => exact ih _ (pathStep_cursor_le s k h)

/-- C7: starting from the empty buffer and cursor 0 that path-entry mode is
entered with, every sequence of path-entry keystrokes keeps the cursor inside
`[0, buffer.length]`; character and paste insertion advance the cursor by the
length of the inserted text, backspace at cursor 0 leaves the state
unchanged, and right/home/end move the cursor to a position bounded by the
buffer length (left only ever decreases it). -/
theorem path_entry_cursor_safety :
    (∀ keys : List PathKey,
        (keys.foldl pathStep pathEntryStart).cursorPosition ≤
          (keys.foldl pathStep pathEntryStart).pathInput.length) ∧
    (∀ (s : PathState) (input : List Char),
        (pathStep s (.charInput input)).cursorPosition = s.cursorPosition + input.length) ∧
    (∀ (s : PathState) (clip : List Char),
        (pathStep s (.paste clip)).cursorPosition =
          s.cursorPosition + (sanitizeClipboard clip).length) ∧
    (∀ buffer : List Char, pathStep ⟨buffer, 0⟩ .backspace = ⟨buffer, 0⟩) ∧
    (∀ s : PathState,
        (pathStep s .leftArrow).cursorPosition ≤ s.cursorPosition ∧
        (pathStep s .rightArrow).cursorPosition ≤ s.pathInput.length ∧
        (pathStep s .home).cursorPosition ≤ s.pathInput.length ∧
        (pathStep s .endKey).cursorPosition ≤ s.pathInput.length) := by
  refine ⟨fun keys => foldl_pathStep_inv keys pathEntryStart (by simp [pathEntryStart]),
    fun s input => rfl, fun s clip => rfl, fun buffer => by simp [pathStep], fun s => ?_⟩
  refine ⟨?_, ?_, ?_, ?_⟩ <;> simp [pathStep]

end GitDiffTui

namespace GitDiffTui

/-! ### Decimal-rendering lemmas -/

theorem digitChar_isDigit : ∀ m : Nat, m < 10 → (Nat.digitChar m).isDigit = true := by decide

theorem toDigitsCore_isDigit (fuel : Nat) :
    ∀ (n : Nat) (acc : List Char), (∀ c ∈ acc, c.isDigit = true) →
      ∀ c ∈ Nat.toDigitsCore 10 fuel n acc, c.isDigit = true := by
  induction fuel with
  | zero =>
      intro n acc hacc c hc
      exact hacc c (by simpa [Nat.toDigitsCore] using hc)
  | succ fuel ih =>
      intro n acc hacc c hc
      simp only [Nat.toDigitsCore] at hc
      have hd : (Nat.digitChar (n % 10)).isDigit = true :=
        digitChar_isDigit _ (Nat.mod_lt _ (by norm_num))
      by_cases h0 : n / 10 = 0
      · rw [if_pos h0] at hc
        rcases List.mem_cons.mp hc with rfl | hc
        · exact hd
        · exact hacc c hc
      · rw [if_neg h0] at hc
        refine ih _ _ ?_ c hc
        intro c' hc'
        rcases List.mem_cons.mp hc' with rfl | hc'
        · exact hd
        · exact hacc c' hc'

theorem toDigitsCore_length10 (fuel : Nat) :
    ∀ (n : Nat) (acc : List Char), n < fuel →
      (Nat.toDigitsCore 10 fuel n acc).length = max 1 (Nat.digits 10 n).length + acc.length := by
  induction fuel with
  | zero => intro n acc h; exact absurd h (Nat.not_lt_zero n)
  | succ fuel ih =>
      intro n acc h
      simp only [Nat.toDigitsCore]
      by_cases h0 : n / 10 = 0
      · rw [if_pos h0]
        have hn : n < 10 := (Nat.div_eq_zero_iff (by norm_num)).mp h0
        rcases Nat.eq_zero_or_pos n with rfl | hpos
        · simp
          omega
        · have hdig : Nat.digits 10 n = [n] := by
            rw [Nat.digits_def' (by norm_num : (1 : ℕ) < 10) hpos, h0]
            simp [Nat.mod_eq_of_lt hn]
          simp [hdig]
          omega
      · rw [if_neg h0]
        have hpos : 0 < n := by
          rcases Nat.eq_zero_or_pos n with rfl | hpos
          · simp at h0
          · exact hpos
        have hlt : n / 10 < fuel := by
          have := Nat.div_lt_self hpos (by norm_num : (1 : ℕ) < 10)
          omega
        rw [ih (n / 10) _ hlt]
        have hd : Nat.digits 10 n = n % 10 :: Nat.digits 10 (n / 10) :=
          Nat.digits_def' (by norm_num) hpos
        have hne : 1 ≤ (Nat.digits 10 (n / 10)).length :=
          List.length_pos.mpr (Nat.digits_ne_nil_iff_ne_zero.mpr h0)
        rw [hd]
        simp only [List.length_cons]
        omega

theorem repr_length_eq (n : Nat) : (Nat.repr n).length = max 1 (Nat.digits 10 n).length := by
  have h : (Nat.repr n).length = (Nat.toDigits 10 n).length := rfl
  rw [h]
  unfold Nat.toDigits
  rw [toDigitsCore_length10 (n + 1) n [] (Nat.lt_succ_self n)]
  simp

theorem repr_isDigit (n : Nat) : ∀ c ∈ (Nat.repr n).data, c.isDigit = true := by
  have h : (Nat.repr n).data = Nat.toDigits 10 n := rfl
  rw [h]
  unfold Nat.toDigits
  exact toDigitsCore_isDigit (n + 1) n [] (by simp)

theorem digitRun_append {s t : String} {a b : Nat} (hs : digitRun s a) (ht : digitRun t b) :
    digitRun (s ++ t) (a + b) := by
  refine ⟨?_, ?_⟩
  · rw [String.length_append, hs.1, ht.1]
  · intro c hc
    rw [String.data_append] at hc
    rcases List.mem_append.mp hc with h | h
    · exact hs.2 c h
    · exact ht.2 c h

theorem toString_digitRun_four {y : Nat} (h1 : 1000 ≤ y) (h2 : y < 10000) :
    digitRun (toString y) 4 := by
  have ht : toString y = Nat.repr y := rfl
  constructor
  · have hlog : Nat.log 10 y = 3 := by
      apply Nat.log_eq_of_pow_le_of_lt_pow
      · norm_num
        omega
      · norm_num
        omega
    rw [ht, repr_length_eq, Nat.digits_len 10 y (by norm_num) (by omega), hlog]
    decide
  · intro c hc
    exact repr_isDigit y c hc

theorem digitRun_padTwo {n : Nat} (h : n < 100) : digitRun (padTwo n) 2 := by
  have ht : toString n = Nat.repr n := rfl
  have hlen : (toString n).length = if n < 10 then 1 else 2 := by
    rw [ht, repr_length_eq]
    by_cases h10 : n < 10
    · rw [if_pos h10]
      rcases Nat.eq_zero_or_pos n with rfl | hpos
      · simp
      · have hlog : Nat.log 10 n = 0 := Nat.log_eq_zero_iff.mpr (Or.inl h10)
        rw [Nat.digits_len 10 n (by norm_num) (by omega), hlog]
        decide
    · rw [if_neg h10]
      have hlog : Nat.log 10 n = 1 := by
        apply Nat.log_eq_of_pow_le_of_lt_pow
        · norm_num
          omega
        · norm_num
          omega
      rw [Nat.digits_len 10 n (by norm_num) (by omega), hlog]
      decide
  unfold padTwo
  by_cases h10 : n < 10
  · have hl : (toString n).length = 1 := by rw [hlen, if_pos h10]
    rw [if_pos (by rw [hl]; norm_num)]
    constructor
    · have hmk : (String.mk (List.replicate (2 - (toString n).length) '0' ++
          (toString n).data)).length =
          (List.replicate (2 - (toString n).length) '0' ++ (toString n).data).length := rfl
      rw [hmk, List.length_append, List.length_replicate]
      have hdl : (toString n).data.length = (toString n).length := rfl
      rw [hdl, hl]
    · intro c hc
      rcases List.mem_append.mp hc with h' | h'
      · have hc0 : c = '0' := List.eq_of_mem_replicate h'
        subst hc0
        decide
      · exact repr_isDigit n c h'
  · have hl : (toString n).length = 2 := by rw [hlen, if_neg h10]
    rw [if_neg (by rw [hl]; norm_num)]
    exact ⟨hl, fun c hc => repr_isDigit n c hc⟩

theorem timestamp_pattern (pre : String) (now : DateTime)
    (hy1 : 1000 ≤ now.year) (hy2 : now.year < 10000) (hmo : now.month < 100)
    (hd : now.day < 100) (hh : now.hours < 100) (hmi : now.minutes < 100)
    (hsc : now.seconds < 100) :
    matchesTimestampPattern pre (getTimestampedFileName pre now) := by
  refine ⟨toString now.year ++ padTwo now.month ++ padTwo now.day,
         padTwo now.hours ++ padTwo now.minutes ++ padTwo now.seconds, ?_, ?_, ?_⟩
  · exact digitRun_append
      (digitRun_append (toString_digitRun_four hy1 hy2) (digitRun_padTwo hmo))
      (digitRun_padTwo hd)
  · exact digitRun_append (digitRun_append (digitRun_padTwo hh) (digitRun_padTwo hmi))
      (digitRun_padTwo hsc)
  · unfold getTimestampedFileName
    apply String.ext
    simp [String.data_append, List.append_assoc]

/-- C8 counterexample: confirming the buffer `" a.txt"` (leading space) for
multi-file export hands the untrimmed buffer to the export routine, so the
resolved path is not the trimmed buffer. -/
theorem confirm_trim_counterexample :
    (confirmEnter .exportPath .files none {"src/a.ts"} .tree " a.txt"
        ⟨2025, 12, 28, 21, 29, 45⟩).action = ExportAction.exportMultiple " a.txt" ∧
    jsTrim " a.txt" ≠ " a.txt" := by
  constructor
  · rfl
  · decide

/-- C8 (amended): confirming always returns the state machine to Normal and
resets buffer and cursor whatever the export outcome; for multi-file export
the buffer is trimmed only to test for emptiness — an empty trimmed buffer is
replaced by `./diff_YYYYMMDD_HHMMSS.txt` (a timestamp-pattern name in the
working directory), while a non-empty buffer is handed to the export routine
untrimmed, exactly as typed. -/
theorem confirm_enter_spec :
    (∀ (mode : EntryMode) (pane : FocusPane) (cc : Option String) (sel : Finset String)
        (dm : DumpMode) (input : String) (now : DateTime),
        (confirmEnter mode pane cc sel dm input now).inputMode = InputMode.normal ∧
        (confirmEnter mode pane cc sel dm input now).pathInput = "" ∧
        (confirmEnter mode pane cc sel dm input now).cursorPosition = 0) ∧
    (∀ (cc : Option String) (sel : Finset String) (dm : DumpMode) (input : String)
        (now : DateTime), sel ≠ ∅ → jsTrim input = "" →
        (confirmEnter .exportPath .files cc sel dm input now).action =
          ExportAction.exportMultiple ("./" ++ getTimestampedFileName "diff" now)) ∧
    (∀ (cc : Option String) (sel : Finset String) (dm : DumpMode) (input : String)
        (now : DateTime), sel ≠ ∅ → jsTrim input ≠ "" →
        (confirmEnter .exportPath .files cc sel dm input now).action =
          ExportAction.exportMultiple input) ∧
    (∀ (pre : String) (now : DateTime), 1000 ≤ now.year → now.year < 10000 →
        now.month < 100 → now.day < 100 → now.hours < 100 → now.minutes < 100 →
        now.seconds < 100 →
        matchesTimestampPattern pre (getTimestampedFileName pre now)) := by
  refine ⟨?_, ?_, ?_, timestamp_pattern⟩
  · intro mode pane cc sel dm input now
    cases mode with
    | exportPath =>
        simp only [confirmEnter]
        split_ifs <;> simp
    | exportOverview => simp [confirmEnter]
    | exportCodeDump => simp [confirmEnter]
  · intro cc sel dm input now hsel hempty
    simp [confirmEnter, hempty, hsel]
  · intro cc sel dm input now hsel hne
    simp [confirmEnter, hne, hsel]

/-- Witness for C8 (amended): empty input confirmed for multi-file export at
the clock reading 2025-12-28 21:29:45. -/
theorem confirm_enter_spec_witness :
    (confirmEnter .exportPath .files none {"src/a.ts"} .tree ""
        ⟨2025, 12, 28, 21, 29, 45⟩).action =
      ExportAction.exportMultiple "./diff_20251228_212945.txt" ∧
    matchesTimestampPattern "diff" (getTimestampedFileName "diff" ⟨2025, 12, 28, 21, 29, 45⟩) := by
  constructor
  · have h := confirm_enter_spec.2.1 none {"src/a.ts"} .tree "" ⟨2025, 12, 28, 21, 29, 45⟩
      (by decide) rfl
    rw [h]
    rfl
  · exact confirm_enter_spec.2.2.2 "diff" ⟨2025, 12, 28, 21, 29, 45⟩ (by norm_num)
      (by norm_num) (by norm_num) (by norm_num) (by norm_num) (by norm_num) (by norm_num)

end GitDiffTui

namespace GitDiffTui

/-- C1 counterexample: main area 16 rows (files-pane viewport height 8), list
rebuilt to 21 rows while the focus sat at 30 with scroll top 0.  The
re-clamp effect moves the focus to 20 but sets the scroll top to
`max(0, 20 - 16 + 1) = 5` using the full `mainAreaHeight`, so the focus row
lies outside the files-pane viewport `[5, 12]` and the scroll top differs
from the value 13 the specification's clamp rule prescribes. -/
theorem scroll_clamp_counterexample :
    reclampEffect 21 16 ⟨30, 0⟩ = ⟨20, 5⟩ ∧
    filesPaneHeight 16 = 8 ∧
    ¬((reclampEffect 21 16 ⟨30, 0⟩).selectedIndex ≤
        (reclampEffect 21 16 ⟨30, 0⟩).listScrollTop + filesPaneHeight 16 - 1) ∧
    (reclampEffect 21 16 ⟨30, 0⟩).listScrollTop ≠
      specScrollClamp (reclampEffect 21 16 ⟨30, 0⟩).selectedIndex 0 (filesPaneHeight 16) := by
  refine ⟨?_, ?_, ?_, ?_⟩ <;> decide

/-- C1 (amended): the up and down navigation handlers preserve the scroll
invariant `0 ≤ scrollTop ≤ focusIndex ≤ scrollTop + filesPaneHeight - 1 < `
taken at the files-pane viewport height whenever it already holds and
`totalRows > 0`; the rebuild re-clamp effect, when `totalRows` has shrunk to
at most `focusIndex`, re-clamps the focus to `max(0, totalRows - 1)` and
establishes the invariant only for the viewport height `mainAreaHeight` (the
full main area rather than the files pane, whose height is
`⌊mainAreaHeight/2⌋`, so the focus row can end up below the visible pane);
no clamping at all runs on a resize while the focus stays in range. -/
theorem scroll_clamp_amended :
    (∀ (h total : Int) (s : PaneState), 1 ≤ h → 0 < total → paneInv h total s →
        paneInv h total (moveUp s)) ∧
    (∀ (mainH total : Int) (s : PaneState), 3 ≤ mainH → 0 < total →
        paneInv (filesPaneHeight mainH) total s →
        paneInv (filesPaneHeight mainH) total (moveDown total mainH s)) ∧
    (∀ (mainH total : Int) (s : PaneState), 1 ≤ mainH → 0 < total →
        total ≤ s.selectedIndex → paneInv mainH total (reclampEffect total mainH s)) := by
  refine ⟨?_, ?_, ?_⟩
  · intro h total s h1 htot hinv
    obtain ⟨i1, i2, i3, i4⟩ := hinv
    refine ⟨?_, ?_, ?_, ?_⟩ <;> simp only [moveUp] <;> (try split_ifs) <;> omega
  · intro mainH total s h3 htot hinv
    obtain ⟨i1, i2, i3, i4⟩ := hinv
    have hph : 1 ≤ filesPaneHeight mainH := by
      unfold filesPaneHeight
      omega
    unfold filesPaneHeight at *
    refine ⟨?_, ?_, ?_, ?_⟩ <;> simp only [moveDown, filesPaneHeight] <;> (try split_ifs) <;>
      omega
  · intro mainH total s h1 htot hsel
    refine ⟨?_, ?_, ?_, ?_⟩ <;> simp only [reclampEffect] <;> (try split_ifs) <;> (try dsimp only) <;>
      omega

/-- Witness for C1 (amended): one step of each handler at a concrete state. -/
theorem scroll_clamp_amended_witness :
    paneInv 8 21 (moveUp ⟨7, 7⟩) ∧
    paneInv (filesPaneHeight 16) 21 (moveDown 21 16 ⟨12, 5⟩) ∧
    paneInv 16 21 (reclampEffect 21 16 ⟨30, 0⟩) :=
  ⟨scroll_clamp_amended.1 8 21 ⟨7, 7⟩ (by decide) (by decide)
      ⟨by decide, by decide, by decide, by decide⟩,
   scroll_clamp_amended.2.1 16 21 ⟨12, 5⟩ (by decide) (by decide)
      ⟨by decide, by decide, by decide, by decide⟩,
   scroll_clamp_amended.2.2 16 21 ⟨30, 0⟩ (by decide) (by decide) (by decide)⟩

end GitDiffTui
